import Mathlib

/-!
# Verification of the meeting-stt transcription backend

Shallow embedding of the transcription session lifecycle, event-streaming
protocol and history persistence layer of the meeting-stt repository
(`src/backend/main.py`, `src/backend/utils/history_storage.py`,
`src/backend/utils/transcription_live_direct.py`), together with theorems
settling the specification claims about them.

Conventions of the embedding:
* Python strings are Lean `String`; Python `None`-able values are `Option`.
* Python floats that are only stored, compared or scaled (timestamps,
  temperatures, back-off sleep durations) are modelled as `ℚ`.
* `uuid.uuid4()` and `datetime.now()` are modelled as explicitly supplied
  arguments (a fresh identifier / a timestamp string), since they are
  nondeterministic inputs of the functions that call them.
* Python dictionaries are association lists preserving insertion order,
  matching CPython dict semantics.
-/

namespace MeetingSTT

/-- Modelled from the spec: `utils/states.py` (not part of the provided
sources) defines the `Transcript_chunk` dataclass — an immutable fragment of
recognized speech with `event_type`, `session`, `offset`/`duration` (integer
ticks), `text`, `speaker_id`, `result_id`, `filename`, `language`, all
nullable except as set by callers. -/
structure TranscriptChunk where
  event_type : Option String := none
  session : Option String := none
  offset : Option Int := none
  duration : Option Int := none
  text : Option String := none
  speaker_id : Option String := none
  result_id : Option String := none
  filename : Option String := none
  language : Option String := none
deriving DecidableEq, Repr

/-- Modelled from the spec: `utils/states.py` defines the `Transcription`
dataclass — one submitted audio job: `id` (absent before first persistence),
file names, `language`, `model`, `temperature`, `diarization`/`combine`
flags, ordered `transcript_chunks`, `status`, nullable `analysis`,
`timestamp`. -/
structure Transcription where
  id : Option String := none
  file_name : Option String := none
  file_name_original : Option String := none
  language : Option String := none
  model : Option String := none
  temperature : Option ℚ := none
  diarization : Option String := none
  combine : Option String := none
  analysis : Option String := none
  timestamp : Option String := none
  status : String := "pending"
  transcript_chunks : List TranscriptChunk := []
deriving DecidableEq, Repr

/-- Modelled from the spec: `utils/states.py` defines the `History`
dataclass — a container keyed by `(user_id, session_id)` with `id`, `type`,
`timestamp`, a `visible` soft-delete flag and an ordered collection of
Transcriptions. -/
structure History where
  id : String
  user_id : String
  session_id : String
  type : String := "transcription"
  timestamp : String := ""
  visible : Bool := true
  transcriptions : List Transcription := []
deriving DecidableEq, Repr

/-- A recognition event dictionary (`event_dict`) as passed to the submit
callback in `main.py`.  `event_type` is always present; the remaining keys
are modelled as `Option` (absent = `none`). -/
structure Event where
  event_type : String
  session : Option String := none
  offset : Option Int := none
  duration : Option Int := none
  text : Option String := none
  speaker_id : Option String := none
  result_id : Option String := none
  filename : Option String := none
deriving DecidableEq, Repr

/-- The `callback` closure of `submit_transcription`
(`src/backend/main.py` lines 446-485), restricted to its effect on the
attached `transcription_record` (the `q.put` side is modelled by
`eventStream` below).  Each branch mirrors one `elif` of the source:
`transcribed` appends a chunk; legacy `transcript` appends a synthesized
chunk and sets status to `completed` unconditionally; `closing` and
`session_stopped` set `completed` only from `pending`; `error` sets
`failed` unconditionally; any other event type leaves the record alone. -/
def callbackStep (t : Transcription) (e : Event) : Transcription :=
  if e.event_type = "transcribed" then
    { t with transcript_chunks := t.transcript_chunks ++
        [{ event_type := some e.event_type
           session := e.session
           offset := e.offset
           duration := e.duration
           text := some (e.text.getD "")
           speaker_id := e.speaker_id
           result_id := e.result_id
           filename := match e.filename with
             | some f => some f
             | none => t.file_name
           language := t.language }] }
  else if e.event_type = "transcript" then
    { t with
        transcript_chunks := t.transcript_chunks ++
          [{ event_type := some "transcribed"
             text := some (e.text.getD "")
             filename := t.file_name
             language := t.language }]
        status := "completed" }
  else if e.event_type = "closing" ∨ e.event_type = "session_stopped" then
    if t.status = "pending" then { t with status := "completed" } else t
  else if e.event_type = "error" then
    { t with status := "failed" }
  else t

/-- Folding the submit callback over a sequence of recognition events in
arrival order. -/
def applyEvents (t : Transcription) (es : List Event) : Transcription :=
  es.foldl callbackStep t

/-- The break condition of the `event_stream` loop
(`src/backend/main.py` line 518): the stream ends after yielding an event
whose `event_type` is `closing` or `session_stopped` — and only then. -/
def isStreamTerminal (e : Event) : Bool :=
  e.event_type == "closing" || e.event_type == "session_stopped"

/-- The consumer loop of `event_stream` (`src/backend/main.py` lines
513-521) applied to the finite sequence of events the worker puts on the
queue, in emission order: every event received is yielded, and the loop
breaks right after yielding a `closing`/`session_stopped` event.  (If the
worker's finite sequence contains no such event the real loop would block
on `q.get()` forever; the events yielded up to that point are exactly the
ones this function returns.) -/
def eventStream : List Event → List Event
  | [] => []
  | e :: rest => if isStreamTerminal e then [e] else e :: eventStream rest

/-! ## History store (`src/backend/utils/history_storage.py`)

The store runs in one of two modes, fixed at initialization: a durable
Azure-Tables mode (`use_azure_tables = True`) or an in-memory fallback.
The table service is modelled as an association list of rows keyed by
`(PartitionKey, RowKey)`; queries return matching rows ordered by
PartitionKey then RowKey, which is the documented result order of the
Azure Table service.  The in-memory mode's dictionaries are association
lists preserving insertion order, as in CPython. -/

/-- Python truthiness of an optional string (`if not transcription.id`,
`if user_id and session_id`): `None` and the empty string are falsy. -/
def truthy : Option String → Bool
  | none => false
  | some s => !(s == "")

/-- One row of the single `TranscriptionHistory` table: either a history
metadata row (`entity_type = "history"`, RowKey `"main"`) or a
transcription row (`entity_type = "transcription"`, RowKey = the
transcription id).  The serialized `transcript_chunks` JSON blob is
modelled as the chunk list itself (`json.dumps`/`json.loads` round-trip). -/
inductive RowData
  | historyRow (user_id session_id htype timestamp : String) (visible : Bool) (count : Nat)
  | transcriptionRow (file_name file_name_original language model : Option String)
      (temperature : Option ℚ) (diarization combine analysis timestamp : Option String)
      (status : String) (chunks : List TranscriptChunk)
deriving DecidableEq, Repr

/-- The Azure table, as the collaborator's visible state: a list of rows in
insertion order, keyed by `(PartitionKey, RowKey)`. -/
structure AzureTable where
  rows : List ((String × String) × RowData) := []
deriving DecidableEq, Repr

/-- First row with the given `(PartitionKey, RowKey)`. -/
def lookupRows : List ((String × String) × RowData) → String → String → Option RowData
  | [], _, _ => none
  | r :: rs, pk, rk => if r.1 = (pk, rk) then some r.2 else lookupRows rs pk rk

/-- `table_client.get_entity(partition_key, row_key)` returning `none` for
`ResourceNotFoundError`. -/
def getEntity (tbl : AzureTable) (pk rk : String) : Option RowData :=
  lookupRows tbl.rows pk rk

/-- `table_client.create_entity`: fails (`ResourceExistsError`, modelled as
`none`) when a row with the same key already exists. -/
def createEntity (tbl : AzureTable) (pk rk : String) (d : RowData) : Option AzureTable :=
  if (getEntity tbl pk rk).isSome then none
  else some { rows := tbl.rows ++ [((pk, rk), d)] }

/-- `table_client.update_entity`: replaces the row with the given key;
fails (modelled as `none`) when no such row exists. -/
def updateEntity (tbl : AzureTable) (pk rk : String) (d : RowData) : Option AzureTable :=
  if (getEntity tbl pk rk).isSome then
    some { rows := tbl.rows.map (fun r => if r.1 = (pk, rk) then (r.1, d) else r) }
  else none

/-- Boolean lexicographic order on character lists (comparing code points),
used to model the byte-lexicographic ordering of table keys and of ISO
timestamp strings. -/
def charListLe : List Char → List Char → Bool
  | [], _ => true
  | _ :: _, [] => false
  | a :: as, b :: bs =>
    if a.toNat < b.toNat then true
    else if b.toNat < a.toNat then false
    else charListLe as bs

/-- Lexicographic order on strings. -/
def strLe (a b : String) : Bool := charListLe a.data b.data

/-- Order on `(PartitionKey, RowKey)` pairs: PartitionKey first, then
RowKey. -/
def keyLe (a b : String × String) : Bool :=
  if a.1 == b.1 then strLe a.2 b.2 else strLe a.1 b.1

/-- Insertion of an element into a list sorted by `le`. -/
def insertLe {α : Type} (le : α → α → Bool) (a : α) : List α → List α
  | [] => [a]
  | b :: bs => if le a b then a :: b :: bs else b :: insertLe le a bs

/-- Insertion sort by a boolean comparison.  Used to model the key order of
table query results and Python's `list.sort`; no claim in this development
depends on how ties are ordered. -/
def sortLe {α : Type} (le : α → α → Bool) : List α → List α
  | [] => []
  | a :: as => insertLe le a (sortLe le as)

/-- `table_client.query_entities(filter)`: the rows satisfying the filter,
returned in `(PartitionKey, RowKey)` order. -/
def queryRows (tbl : AzureTable) (p : String × String → RowData → Bool) :
    List ((String × String) × RowData) :=
  sortLe (fun r s => keyLe r.1 s.1) (tbl.rows.filter (fun r => p r.1 r.2))

/-- Row accessors mirroring `entity["..."]` lookups. -/
def rowIsHistory : RowData → Bool
  | .historyRow .. => true
  | _ => false

def rowIsTranscription : RowData → Bool
  | .transcriptionRow .. => true
  | _ => false

def rowSession : RowData → String
  | .historyRow _ sid _ _ _ _ => sid
  | _ => ""

def rowVisible : RowData → Bool
  | .historyRow _ _ _ _ v _ => v
  | _ => false

def rowTimestamp : RowData → String
  | .historyRow _ _ _ ts _ _ => ts
  | _ => ""

/-- The in-memory fallback state: `memory_history` (a dict keyed by
history id) and `memory_transcriptions` (a dict keyed by transcription
id), both as insertion-ordered association lists. -/
structure MemoryStore where
  histories : List History := []
  transcriptions : List (String × Transcription) := []
deriving DecidableEq, Repr

/-- CPython dict assignment `memory_history[h.id] = h`: replace in place if
the key exists, else append. -/
def dictInsertHistory (hs : List History) (h : History) : List History :=
  if hs.any (fun x => x.id == h.id) then
    hs.map (fun x => if x.id == h.id then h else x)
  else hs ++ [h]

/-- CPython dict assignment for `memory_transcriptions`. -/
def dictInsertTrans (l : List (String × Transcription)) (k : String) (v : Transcription) :
    List (String × Transcription) :=
  if l.any (fun x => x.1 == k) then
    l.map (fun x => if x.1 == k then (k, v) else x)
  else l ++ [(k, v)]

/-- The `HistoryStorage` state: `use_azure_tables` selects durable
Azure-Tables mode or the in-memory fallback. -/
inductive Store
  | mem (m : MemoryStore)
  | azure (tbl : AzureTable)
deriving DecidableEq, Repr

/-- The transcription entity written by `add_transcription_to_history` /
`_update_transcription_with_retry` (entity field per dataclass field, with
`transcript_chunks` as the serialized chunk list). -/
def rowOfTranscription (t : Transcription) : RowData :=
  .transcriptionRow t.file_name t.file_name_original t.language t.model
    t.temperature t.diarization t.combine t.analysis t.timestamp t.status
    t.transcript_chunks

/-- Rebuilding a `Transcription` from a stored row, as in
`_get_transcriptions_for_history` (the id comes from the RowKey). -/
def transcriptionOfRow (tid : String) : RowData → Option Transcription
  | .transcriptionRow fn fno lang mdl temp dia comb ana ts st chs =>
      some { id := some tid, file_name := fn, file_name_original := fno,
             language := lang, model := mdl, temperature := temp,
             diarization := dia, combine := comb, analysis := ana,
             timestamp := ts, status := st, transcript_chunks := chs }
  | _ => none

/-- Rebuilding a `History` from its metadata row (lines 362-370 and the
query paths); the transcription collection is supplied by the caller. -/
def historyOfMainRow (hid : String) (trs : List Transcription) :
    RowData → Option History
  | .historyRow uid sid ty ts vis _ =>
      some { id := hid, user_id := uid, session_id := sid, type := ty,
             timestamp := ts, visible := vis, transcriptions := trs }
  | _ => none

/-- `_get_transcriptions_for_history` (lines 555-607): all transcription
rows of the history's partition, in query (RowKey) order. -/
def getTranscriptionsForHistory (tbl : AzureTable) (hid : String) :
    List Transcription :=
  (queryRows tbl (fun k d => k.1 == hid && rowIsTranscription d)).filterMap
    (fun r => transcriptionOfRow r.1.2 r.2)

/-- `get_history_by_id` (lines 342-379): direct lookup, with transcriptions
populated; `none` when absent. -/
def getHistoryById (st : Store) (hid : String) : Option History :=
  match st with
  | .mem m => m.histories.find? (fun h => h.id == hid)
  | .azure tbl =>
    match getEntity tbl hid "main" with
    | some d => historyOfMainRow hid (getTranscriptionsForHistory tbl hid) d
    | none => none

/-- `add_history_record` (lines 98-144).  `fresh` models `uuid.uuid4()`,
`ts` models `datetime.now().isoformat()`.  In the durable mode a
`create_entity` failure propagates as an exception, modelled as `none`. -/
def newHistoryRecord (fresh ts user_id session_id htype : String) : History :=
  { id := fresh, user_id := user_id, session_id := session_id,
    type := htype, timestamp := ts, visible := true, transcriptions := [] }

def addHistoryRecord (st : Store) (fresh ts user_id session_id htype : String) :
    Option (History × Store) :=
  let h := newHistoryRecord fresh ts user_id session_id htype
  match st with
  | .mem m => some (h, .mem { m with histories := dictInsertHistory m.histories h })
  | .azure tbl =>
    match createEntity tbl fresh "main" (.historyRow user_id session_id htype ts true 0) with
    | some tbl' => some (h, .azure tbl')
    | none => none

/-- `add_transcription_to_history` (lines 146-235).  Returns the boolean
result, the new store state, and the transcription object as mutated by the
call (the source writes the generated id back into the caller's object).
In the durable mode the id is overwritten with a fresh uuid
unconditionally (lines 177-182); in the in-memory mode a fresh uuid is
generated only when the id is falsy (lines 152-155). -/
def addTransMemGo (m : MemoryStore) (hid : String) (t' : Transcription) :
    Bool × Store × Transcription :=
  (true,
   .mem { histories := m.histories.map (fun h =>
            if h.id == hid then { h with transcriptions := h.transcriptions ++ [t'] } else h),
          transcriptions := dictInsertTrans m.transcriptions (t'.id.getD "") t' },
   t')

def addTransMem (m : MemoryStore) (hid : String) (t : Transcription)
    (fresh : String) : Bool × Store × Transcription :=
  if m.histories.any (fun h => h.id == hid) then
    addTransMemGo m hid (if truthy t.id then t else { t with id := some fresh })
  else (false, .mem m, t)

def addTransAzure (tbl : AzureTable) (hid : String) (t' : Transcription)
    (fresh : String) : Bool × Store × Transcription :=
  match createEntity tbl hid fresh (rowOfTranscription t') with
  | none => (false, .azure tbl, t')
  | some tbl' =>
    match getEntity tbl' hid "main" with
    | some (.historyRow uid sid ty ts vis cnt) =>
      match updateEntity tbl' hid "main" (.historyRow uid sid ty ts vis (cnt + 1)) with
      | some tbl'' => (true, .azure tbl'', t')
      | none => (false, .azure tbl', t')
    | _ => (false, .azure tbl', t')

def addTranscriptionToHistory (st : Store) (hid : String) (t : Transcription)
    (fresh : String) : Bool × Store × Transcription :=
  match st with
  | .mem m => addTransMem m hid t fresh
  | .azure tbl =>
    match getHistoryById st hid with
    | none => (false, st, t)
    | some _ => addTransAzure tbl hid { t with id := some fresh } fresh

/-- The in-memory update loop of `update_transcription` (lines 253-263):
find the first transcription with a matching id, overwrite its `status`,
`transcript_chunks` and `timestamp`, and stop. -/
def updateMemTranscriptions (t : Transcription) :
    List Transcription → Bool × List Transcription
  | [] => (false, [])
  | x :: xs =>
    if x.id == t.id then
      (true,
       { x with status := t.status, transcript_chunks := t.transcript_chunks,
                timestamp := t.timestamp } :: xs)
    else
      let r := updateMemTranscriptions t xs
      (r.1, x :: r.2)

/-- `update_transcription` (lines 237-276) in a sequential execution (no
concurrent writer, so the durable path's ETag precondition cannot fail and
the first retry attempt decides the outcome; the retry loop itself is
modelled separately by `updateTranscriptionWithRetry`).  A falsy
`transcription.id` fails before any store access.  In the durable mode the
row addressed by `(history_id, transcription.id)` is read fresh, its
`status`, `transcript_chunks` and `timestamp` fields are overwritten, and
the entity is replaced; a missing row makes every attempt raise
`ResourceNotFoundError` and the call returns failure.  (Rows whose RowKey
is a transcription id are always transcription rows in every state this
development builds, so the history-row case returns failure.) -/
def updateTranscription (st : Store) (hid : String) (t : Transcription) :
    Bool × Store :=
  if !(truthy t.id) then (false, st)
  else match st with
  | .mem m =>
    match m.histories.find? (fun h => h.id == hid) with
    | none => (false, st)
    | some h =>
      let r := updateMemTranscriptions t h.transcriptions
      if r.1 then
        (true, .mem { m with histories := m.histories.map (fun x =>
          if x.id == hid then { x with transcriptions := r.2 } else x) })
      else (false, st)
  | .azure tbl =>
    match getEntity tbl hid (t.id.getD "") with
    | some (.transcriptionRow fn fno lang mdl temp dia comb ana _ _ _) =>
      match updateEntity tbl hid (t.id.getD "")
          (.transcriptionRow fn fno lang mdl temp dia comb ana t.timestamp
            t.status t.transcript_chunks) with
      | some tbl' => (true, .azure tbl')
      | none => (false, st)
    | _ => (false, st)

/-- The comparison of `entities.sort(key=lambda x: x["timestamp"],
reverse=True)`: newest (lexicographically largest ISO timestamp) first. -/
def tsDescLe (a b : (String × String) × RowData) : Bool :=
  strLe (rowTimestamp b.2) (rowTimestamp a.2)

/-- A history metadata row turned into a shallow `History` (transcriptions
deliberately not loaded, lines 411-423). -/
def shallowHistory (r : (String × String) × RowData) : Option History :=
  historyOfMainRow r.1.1 [] r.2

/-- `get_all_history` (lines 381-430).  In-memory mode: dict values in
insertion order, optionally filtered by visibility, truncated to `limit`
(no sorting, transcriptions as stored).  Durable mode: history metadata
rows, sorted by timestamp descending, truncated to `limit`, with empty
transcription collections. -/
def getAllHistory (st : Store) (visibleOnly : Bool) (limit : Nat) : List History :=
  match st with
  | .mem m =>
    let hs := if visibleOnly then m.histories.filter (fun h => h.visible) else m.histories
    hs.take limit
  | .azure tbl =>
    let rows := queryRows tbl (fun _ d => rowIsHistory d && (!visibleOnly || rowVisible d))
    ((sortLe tsDescLe rows).take limit).filterMap shallowHistory

/-- `get_session_history` (lines 477-520): records of one session, with
transcriptions populated in the durable mode; no sorting in either mode
(in-memory: insertion order; durable: query key order). -/
def getSessionHistory (st : Store) (sid : String) (visibleOnly : Bool) :
    List History :=
  match st with
  | .mem m =>
    let hs := m.histories.filter (fun h => h.session_id == sid)
    if visibleOnly then hs.filter (fun h => h.visible) else hs
  | .azure tbl =>
    let rows := queryRows tbl (fun _ d =>
      rowIsHistory d && rowSession d == sid && (!visibleOnly || rowVisible d))
    rows.filterMap (fun r =>
      historyOfMainRow r.1.1 (getTranscriptionsForHistory tbl r.1.1) r.2)

/-! ## The optimistic-concurrency retry loop

`_update_transcription_with_retry` (lines 278-339) interacts with the
table service once per loop iteration: a fresh `get_entity` read followed
by a preconditioned `update_entity`.  Under concurrency the combined
outcome of one iteration is decided by the service, so the loop is
modelled against an oracle giving the outcome of each attempt. -/

/-- Outcome of one read-modify-write attempt against the table service. -/
inductive AttemptOutcome
  | ok                 -- read and preconditioned write both succeed
  | precondFailed      -- `HttpResponseError` with status 412 (ETag mismatch)
  | httpErr            -- `HttpResponseError` with a status other than 412
  | exc                -- any other exception (e.g. `ResourceNotFoundError`)
deriving DecidableEq, Repr

/-- Trace of a run of the retry loop: the boolean result, the number of
loop iterations executed (each iteration begins with a fresh `get_entity`
read), and the list of back-off sleeps performed, in order. -/
structure RetryTrace where
  result : Bool
  attempts : Nat
  sleeps : List ℚ
deriving DecidableEq, Repr

/-- `time.sleep(0.1 * (2 ** attempt))` (lines 323, 335). -/
def backoffSleep (attempt : Nat) : ℚ := (1 / 10) * 2 ^ attempt

/-- The body of the `for attempt in range(max_retries)` loop (lines
285-339), with `fuel` the number of remaining iterations: a successful
attempt returns `True`; a 412 or a generic exception sleeps and retries
unless this was the last permitted attempt, in which case the loop returns
`False`; a non-412 HTTP error returns `False` at once.  Falling out of the
loop (line 339) returns `False`. -/
def retryGo (outcome : Nat → AttemptOutcome) (maxRetries : Nat) :
    Nat → Nat → RetryTrace
  | 0, attempt => { result := false, attempts := attempt, sleeps := [] }
  | fuel + 1, attempt =>
    match outcome attempt with
    | .ok => { result := true, attempts := attempt + 1, sleeps := [] }
    | .httpErr => { result := false, attempts := attempt + 1, sleeps := [] }
    | .precondFailed =>
      if attempt < maxRetries - 1 then
        let r := retryGo outcome maxRetries fuel (attempt + 1)
        { r with sleeps := backoffSleep attempt :: r.sleeps }
      else { result := false, attempts := attempt + 1, sleeps := [] }
    | .exc =>
      if attempt < maxRetries - 1 then
        let r := retryGo outcome maxRetries fuel (attempt + 1)
        { r with sleeps := backoffSleep attempt :: r.sleeps }
      else { result := false, attempts := attempt + 1, sleeps := [] }

/-- `_update_transcription_with_retry` with its default `max_retries = 3`,
run against an attempt-outcome oracle. -/
def updateTranscriptionWithRetry (outcome : Nat → AttemptOutcome) : RetryTrace :=
  retryGo outcome 3 3 0

/-! ## Live session push (`src/backend/utils/transcription_live_direct.py`) -/

/-- One entry of a live session's result buffer, as appended by
`transcribed_handler` (lines 186-196); `timestamp` is the `time.time()`
value recorded at append time. -/
structure LiveResult where
  speaker : String
  text : String
  offset : ℚ
  duration : ℚ
  timestamp : ℚ
  confidence : ℚ
  azure_speaker_id : Option String := none
deriving DecidableEq, Repr

/-- The per-key live session state relevant to a push: the result buffer,
error buffer and creation time (the recognizer handle and push stream are
opaque collaborator handles). -/
structure LiveSession where
  results : List LiveResult := []
  errors : List String := []
  created_at : ℚ := 0
deriving DecidableEq, Repr

/-- The fixed wait after submitting audio: `await asyncio.sleep(0.5)`
(line 232). -/
def pushWaitSeconds : ℚ := 1 / 2

/-- What `_push_audio_to_session` returns together with the session state
it leaves behind. -/
structure PushOutcome where
  success : Bool
  results : List LiveResult
  sessionAfter : LiveSession
deriving DecidableEq, Repr

/-- `_push_audio_to_session` (lines 218-256) on the non-exception path:
the audio bytes are handed to the recognizer (which appends to the result
buffer asynchronously, outside this function), the call sleeps
`pushWaitSeconds`, and then — with `now` the `time.time()` after the wait —
returns the buffered results at most 5 seconds old and prunes the buffer
to entries at most 30 seconds old. -/
def pushAudioToSession (s : LiveSession) (now : ℚ) : PushOutcome :=
  let recent := s.results.filter (fun r => decide (now - r.timestamp ≤ 5))
  let pruned := s.results.filter (fun r => decide (now - r.timestamp ≤ 30))
  { success := true, results := recent, sessionAfter := { s with results := pruned } }

/-! ## The submit endpoint (`src/backend/main.py`) -/

/-- `add_history_record` in `main.py` (lines 76-95): delegates to the
store; if the store raises (durable-mode `create_entity` failure), the
exception is caught and a fallback `History` — with a second fresh uuid —
is appended to `app.state.history` only, leaving the store unchanged.
(The fallback record's dataclass defaults come from `utils/states.py`,
absent from the sources; its unset fields follow the spec's data model.
No theorem below exercises this path.) -/
def addHistoryRecordMain (st : Store) (fresh fallbackFresh ts user_id session_id : String) :
    History × Store :=
  match addHistoryRecord st fresh ts user_id session_id "transcription" with
  | some r => r
  | none =>
    ({ id := fallbackFresh, user_id := user_id, session_id := session_id,
       type := "transcription", timestamp := ts }, st)

/-- Submission parameters of the `/submit` endpoint (form fields;
`user_id`, `session_id` and `model` default to `None`). -/
structure SubmitParams where
  file_name : String
  file_name_original : String
  temperature : ℚ
  diarization : String
  combine : String
  language : String
  user_id : Option String := none
  session_id : Option String := none
  model : Option String := none
deriving DecidableEq, Repr

/-- Observable outcome of one submission: the store state after the
history block, the chosen history record, whether a new one was created,
the result of `add_transcription_to_history`, whether a worker thread was
started, and the HTTP error (if any) raised inside `event_stream` before
the worker starts. -/
structure SubmitOutcome where
  store : Store
  historyRecord : Option History
  historyCreated : Bool
  transcriptionAdded : Bool
  workerStarted : Bool
  streamHttpError : Option Nat
deriving DecidableEq, Repr

/-- The model dispatch at the top of `event_stream` (lines 488-511):
`llm` and `msft` start a worker thread (the mono/stereo entry-point choice
for `llm` does not affect which observables this model tracks); `whisper`
starts one only when the earlier blob upload produced a URL, otherwise it
raises HTTP 500 (line 503); any other model raises HTTP 400 (line 510)
before any thread is created. -/
def dispatchModel (model : Option String) (blobUrl : Option String) :
    Bool × Option Nat :=
  match model with
  | some "llm" => (true, none)
  | some "whisper" =>
    match blobUrl with
    | some _ => (true, none)
    | none => (false, some 500)
  | some "msft" => (true, none)
  | _ => (false, some 400)

/-- The `pending` Transcription record built from the request parameters
(lines 427-436). -/
def submitTrec (p : SubmitParams) : Transcription :=
  { file_name := some p.file_name
    file_name_original := some p.file_name_original
    language := some p.language
    model := p.model
    temperature := some p.temperature
    diarization := some p.diarization
    combine := some p.combine
    status := "pending" }

/-- The history-attachment block and worker dispatch of
`submit_transcription` (lines 411-511), after the audio-file handling.
When both `user_id` and `session_id` are truthy, the last element
of `get_session_history(session_id, visible_only=False)` is reused if any
exists, otherwise a new record is created; then a `pending` transcription
built from the request parameters is added to it.  The model dispatch
happens when the returned `event_stream` generator first runs.  `freshHist`,
`fallbackHist` and `freshTrans` model the `uuid.uuid4()` calls, `ts` the
creation timestamp, `blobUrl` the result of the earlier whisper upload. -/
def submitTranscription (st : Store) (p : SubmitParams)
    (freshHist fallbackHist freshTrans ts : String) (blobUrl : Option String) :
    SubmitOutcome :=
  if truthy p.user_id && truthy p.session_id then
    let sid := p.session_id.getD ""
    let uid := p.user_id.getD ""
    let existing := getSessionHistory st sid false
    let hs :=
      match existing.getLast? with
      | some h0 => (h0, st, false)
      | none =>
        let r := addHistoryRecordMain st freshHist fallbackHist ts uid sid
        (r.1, r.2, true)
    let r2 := addTranscriptionToHistory hs.2.1 hs.1.id (submitTrec p) freshTrans
    let d := dispatchModel p.model blobUrl
    { store := r2.2.1, historyRecord := some hs.1, historyCreated := hs.2.2,
      transcriptionAdded := r2.1, workerStarted := d.1, streamHttpError := d.2 }
  else
    let d := dispatchModel p.model blobUrl
    { store := st, historyRecord := none, historyCreated := false,
      transcriptionAdded := false, workerStarted := d.1, streamHttpError := d.2 }

/-- A `pending` transcription record as created by `submit_transcription`
before any event arrives. -/
def pendingRecord : Transcription := { status := "pending" }

/-- An `error` recognition event. -/
def evError : Event := { event_type := "error" }

/-- A legacy full-text `transcript` recognition event. -/
def evTranscript : Event := { event_type := "transcript", text := some "hello" }

/-- A `closing` recognition event. -/
def evClosing : Event := { event_type := "closing" }

/-- A `transcribed` recognition event. -/
def evTranscribed : Event := { event_type := "transcribed", text := some "hi" }

/-- A transcription record whose status is already `failed`. -/
def failedRecord : Transcription := { status := "failed" }

/-- Fixture: a stored `pending` transcription with id `"T"`. -/
def tPendC9 : Transcription := { id := some "T", model := some "llm", status := "pending" }

/-- Fixture: the intended final state of the same transcription. -/
def tDoneC9 : Transcription :=
  { id := some "T", model := some "llm", status := "completed", transcript_chunks := [{ text := some "hi" }] }

/-- Fixture: an in-memory store holding one history with one stored
transcription. -/
def memC9 : Store :=
  Store.mem { histories := [{ id := "H", user_id := "u", session_id := "s", transcriptions := [tPendC9] }] }

/-- Fixture: a history created first (older timestamp), holding one stored
transcription. -/
def h1C6 : History :=
  { id := "h1", user_id := "u", session_id := "s1", timestamp := "2024-01-01", transcriptions := [tPendC9] }

/-- Fixture: a history created second (newer timestamp). -/
def h2C6 : History :=
  { id := "h2", user_id := "u", session_id := "s2", timestamp := "2024-01-02" }

/-- Fixture: an in-memory store holding the two histories in creation
order. -/
def memC6 : Store := Store.mem { histories := [h1C6, h2C6] }

/-- Fixture: a durable table holding the same two histories as rows. -/
def azTblC6 : AzureTable :=
  { rows := [(("h1", "main"), .historyRow "u" "s1" "transcription" "2024-01-01" true 0), (("h2", "main"), .historyRow "u" "s2" "transcription" "2024-01-02" true 0)] }

/-- Fixture: the durable store over `azTblC6`. -/
def azC6 : Store := Store.azure azTblC6

/-- Fixture: a durable table with two histories for the same session
`"S"`, the first-created one under partition key `"b"`, the more recent
one under partition key `"a"`. -/
def azTblC7 : AzureTable :=
  { rows := [(("b", "main"), .historyRow "u" "S" "transcription" "2024-01-01" true 0), (("a", "main"), .historyRow "u" "S" "transcription" "2024-01-02" true 0)] }

/-- Fixture: the durable store over `azTblC7`. -/
def azC7 : Store := Store.azure azTblC7

/-- Fixture: a valid submission for session `"S"`. -/
def pC7 : SubmitParams :=
  { file_name := "f.wav", file_name_original := "f.wav", temperature := 0, diarization := "false", combine := "false", language := "cs-CZ", user_id := some "u", session_id := some "S", model := some "llm" }

/-- Fixture: the more recently created history of session `"S"`. -/
def hRecentC7 : History :=
  { id := "a", user_id := "u", session_id := "S", timestamp := "2024-01-02" }

/-- Fixture: the first-created history of session `"S"`. -/
def hOldC7 : History :=
  { id := "b", user_id := "u", session_id := "S", timestamp := "2024-01-01" }

/-- Fixture: a submission with an invalid model name. -/
def pBogus : SubmitParams :=
  { file_name := "f.wav", file_name_original := "f.wav", temperature := 0, diarization := "false", combine := "false", language := "cs-CZ", user_id := some "U", session_id := some "S", model := some "bogus" }

/-- The stored transcription a given `(history_id, transcription_id)` pair
denotes: in the in-memory mode the first transcription with that id inside
the history record, in the durable mode the row with that key, rebuilt as
`_get_transcriptions_for_history` rebuilds it. -/
def lookupStoredTranscription (st : Store) (hid tid : String) : Option Transcription :=
  match st with
  | .mem m =>
    match m.histories.find? (fun h => h.id == hid) with
    | some h => h.transcriptions.find? (fun x => x.id == some tid)
    | none => none
  | .azure tbl =>
    match getEntity tbl hid tid with
    | some d => transcriptionOfRow tid d
    | none => none

/-- In the durable mode, "the fresh transcription id is unused" means no
row of the history's partition already has it as RowKey; the in-memory
mode needs no such condition. -/
def freshIdUnused (st : Store) (hid fresh : String) : Prop :=
  match st with
  | .mem _ => True
  | .azure tbl => getEntity tbl hid fresh = none

/-! ## Theorems -/

/-- Looking a key up after appending a row: a key already present is still
found with the same row. -/
theorem lookupRows_append_of_some (rs : List ((String × String) × RowData))
    (pk rk : String) (d : RowData) (nr : (String × String) × RowData)
    (h : lookupRows rs pk rk = some d) :
    lookupRows (rs ++ [nr]) pk rk = some d := by
  induction rs with
  | nil => simp [lookupRows] at h
  | cons a as ih =>
    simp only [List.cons_append, lookupRows] at *
    by_cases ha : a.1 = (pk, rk)
    · simpa [ha] using h
    · simp only [if_neg ha] at *
      exact ih h

/-- Looking up the key of a freshly appended row when it was absent before
finds the new row. -/
theorem lookupRows_append_self (rs : List ((String × String) × RowData))
    (pk rk : String) (d : RowData) (h : lookupRows rs pk rk = none) :
    lookupRows (rs ++ [((pk, rk), d)]) pk rk = some d := by
  induction rs with
  | nil => simp [lookupRows]
  | cons a as ih =>
    simp only [List.cons_append, lookupRows] at *
    by_cases ha : a.1 = (pk, rk)
    · simp [ha] at h
    · simp only [if_neg ha] at *
      exact ih h

/-- Replacing the row at one key leaves lookups of every other key
unchanged. -/
theorem lookupRows_replace_ne (rs : List ((String × String) × RowData))
    (k0 : String × String) (d0 : RowData) (pk rk : String)
    (hne : (pk, rk) ≠ k0) :
    lookupRows (rs.map (fun r => if r.1 = k0 then (r.1, d0) else r)) pk rk =
      lookupRows rs pk rk := by
  induction rs with
  | nil => rfl
  | cons a as ih =>
    by_cases hk : a.1 = k0
    · have h2 : k0 ≠ (pk, rk) := Ne.symm hne
      simp [List.map_cons, lookupRows, hk, h2, ih]
    · by_cases ha : a.1 = (pk, rk)
      · simp [List.map_cons, lookupRows, hk, ha, hne]
      · simp [List.map_cons, lookupRows, hk, ha, ih]

/-- Replacing the row at a present key makes lookups of that key return
the replacement. -/
theorem lookupRows_replace_self (rs : List ((String × String) × RowData))
    (pk rk : String) (dNew : RowData)
    (h : (lookupRows rs pk rk).isSome) :
    lookupRows (rs.map (fun r => if r.1 = (pk, rk) then (r.1, dNew) else r)) pk rk =
      some dNew := by
  induction rs with
  | nil => simp [lookupRows] at h
  | cons a as ih =>
    simp only [List.map_cons, lookupRows] at *
    by_cases ha : a.1 = (pk, rk)
    · simp [ha]
    · simp only [if_neg ha] at *
      exact ih h

/-- The transcription object returned by the durable add path is the input
with the fresh id written in, on every branch of the azure add. -/
theorem addTransAzure_trans_eq (tbl : AzureTable) (hid : String)
    (t' : Transcription) (fresh : String) :
    (addTransAzure tbl hid t' fresh).2.2 = t' := by
  unfold addTransAzure
  repeat' split
  all_goals rfl

/-- A truthy optional string is not `none`. -/
theorem truthy_ne_none (o : Option String) (h : truthy o = true) : o ≠ none := by
  intro hn
  rw [hn] at h
  simp [truthy] at h

/-- When the history exists in memory, the in-memory add runs the happy
path. -/
theorem addTransMem_of_any (m : MemoryStore) (hid : String) (t : Transcription)
    (fresh : String) (h : m.histories.any (fun x => x.id == hid) = true) :
    addTransMem m hid t fresh =
      addTransMemGo m hid (if truthy t.id then t else { t with id := some fresh }) := by
  simp [addTransMem, h]

/-- When the history is absent in memory, the in-memory add fails leaving
the transcription untouched. -/
theorem addTransMem_of_not_any (m : MemoryStore) (hid : String) (t : Transcription)
    (fresh : String) (h : m.histories.any (fun x => x.id == hid) = false) :
    addTransMem m hid t fresh = (false, .mem m, t) := by
  simp [addTransMem, h]

/-- C10 (confirmed): after every successful `add_transcription_to_history`
the transcription's id is truthy (in particular non-null); the durable mode
overwrites any caller-supplied id with the freshly generated uuid
unconditionally, while the in-memory mode preserves a truthy pre-set id and
generates a fresh one only when the id was unset — so the two modes
disagree on whether a pre-set id survives the call. -/
theorem C10_add_assigns_id (st : Store) (hid : String) (t : Transcription)
    (fresh : String) (hfresh : fresh ≠ "") :
    ((addTranscriptionToHistory st hid t fresh).1 = true →
      (addTranscriptionToHistory st hid t fresh).2.2.id ≠ none ∧
      truthy (addTranscriptionToHistory st hid t fresh).2.2.id = true) ∧
    (∀ tbl, st = Store.azure tbl →
      (addTranscriptionToHistory st hid t fresh).1 = true →
      (addTranscriptionToHistory st hid t fresh).2.2.id = some fresh) ∧
    (∀ m, st = Store.mem m →
      (addTranscriptionToHistory st hid t fresh).1 = true →
      (addTranscriptionToHistory st hid t fresh).2.2.id =
        (if truthy t.id then t.id else some fresh)) := by
  have htr : truthy (some fresh) = true := by
    simp [truthy, hfresh]
  refine ⟨?_, ?_, ?_⟩
  · intro hsucc
    cases st with
    | mem m =>
      have heq : addTranscriptionToHistory (Store.mem m) hid t fresh =
          addTransMem m hid t fresh := rfl
      rw [heq] at hsucc ⊢
      cases hany : m.histories.any (fun x => x.id == hid) with
      | false => rw [addTransMem_of_not_any m hid t fresh hany] at hsucc; simp at hsucc
      | true =>
        rw [addTransMem_of_any m hid t fresh hany]
        by_cases hidt : truthy t.id
        · rw [if_pos hidt]
          exact ⟨truthy_ne_none t.id hidt, hidt⟩
        · rw [if_neg hidt]
          exact ⟨by simp [addTransMemGo], htr⟩
    | azure tbl =>
      have heq : addTranscriptionToHistory (Store.azure tbl) hid t fresh =
          (match getHistoryById (Store.azure tbl) hid with
           | none => (false, Store.azure tbl, t)
           | some _ => addTransAzure tbl hid { t with id := some fresh } fresh) := rfl
      rw [heq] at hsucc ⊢
      rcases hgh : getHistoryById (Store.azure tbl) hid with _ | h
      · rw [hgh] at hsucc; simp at hsucc
      · simp only [hgh]
        rw [addTransAzure_trans_eq]
        exact ⟨by simp, htr⟩
  · rintro tbl rfl hsucc
    have heq : addTranscriptionToHistory (Store.azure tbl) hid t fresh =
        (match getHistoryById (Store.azure tbl) hid with
         | none => (false, Store.azure tbl, t)
         | some _ => addTransAzure tbl hid { t with id := some fresh } fresh) := rfl
    rw [heq] at hsucc ⊢
    rcases hgh : getHistoryById (Store.azure tbl) hid with _ | h
    · rw [hgh] at hsucc; simp at hsucc
    · simp only [hgh]
      rw [addTransAzure_trans_eq]
  · rintro m rfl hsucc
    have heq : addTranscriptionToHistory (Store.mem m) hid t fresh =
        addTransMem m hid t fresh := rfl
    rw [heq] at hsucc ⊢
    cases hany : m.histories.any (fun x => x.id == hid) with
    | false => rw [addTransMem_of_not_any m hid t fresh hany] at hsucc; simp at hsucc
    | true =>
      rw [addTransMem_of_any m hid t fresh hany]
      by_cases hidt : truthy t.id <;> simp [hidt, addTransMemGo]

/-- Appending a transcription to the history entry of a memory store keeps
the entry findable, with the appended collection. -/
theorem find?_map_update (hs : List History) (hid : String) (t' : Transcription)
    (h0 : History) (hfind : hs.find? (fun h => h.id == hid) = some h0) :
    (hs.map (fun h =>
        if h.id == hid then { h with transcriptions := h.transcriptions ++ [t'] } else h)).find?
      (fun h => h.id == hid) =
      some { h0 with transcriptions := h0.transcriptions ++ [t'] } := by
  induction hs with
  | nil => simp at hfind
  | cons a as ih =>
    by_cases ha : (a.id == hid) = true
    · simp only [List.find?_cons, ha] at hfind
      have haeq : a = h0 := by simpa using hfind
      subst haeq
      simp only [List.map_cons, if_pos ha, List.find?_cons]
      have hb : (({ a with transcriptions := a.transcriptions ++ [t'] } : History).id == hid)
          = true := by simpa using ha
      simp only [hb]
    · have ha' : (a.id == hid) = false := by simpa using ha
      simp only [List.find?_cons, ha'] at hfind
      simp only [List.map_cons, ha', Bool.false_eq_true, if_false, List.find?_cons]
      exact ih hfind

/-- The in-memory update loop succeeds when some element carries the
sought id. -/
theorem updateMem_true_of_mem (t : Transcription) (l : List Transcription)
    (h : ∃ x ∈ l, (x.id == t.id) = true) :
    (updateMemTranscriptions t l).1 = true := by
  induction l with
  | nil => simp at h
  | cons a as ih =>
    by_cases ha : (a.id == t.id) = true
    · simp [updateMemTranscriptions, ha]
    · rcases h with ⟨x, hx, hpx⟩
      rcases List.mem_cons.mp hx with rfl | hx'
      · exact absurd hpx ha
      · simp only [updateMemTranscriptions, ha, Bool.false_eq_true, if_false]
        exact ih ⟨x, hx', hpx⟩

/-- The in-memory `update_transcription` succeeds when the history is
findable and the inner loop succeeds. -/
theorem updateTranscription_mem_true (m : MemoryStore) (hid : String)
    (t : Transcription) (h0 : History)
    (ht : truthy t.id = true)
    (hfind : m.histories.find? (fun x => x.id == hid) = some h0)
    (hinl : (updateMemTranscriptions t h0.transcriptions).1 = true) :
    (updateTranscription (Store.mem m) hid t).1 = true := by
  unfold updateTranscription
  simp only [ht, Bool.not_true, Bool.false_eq_true, if_false, hfind, hinl, if_true]

/-- The durable `update_transcription` succeeds when the addressed
transcription row exists. -/
theorem updateTranscription_azure_true (tbl : AzureTable) (hid : String)
    (t : Transcription) (tid : String) (hidv : t.id = some tid) (htid : tid ≠ "")
    (d : RowData) (hget : getEntity tbl hid tid = some d)
    (hd : rowIsTranscription d = true) :
    (updateTranscription (Store.azure tbl) hid t).1 = true := by
  cases d with
  | historyRow a b c e f g => simp [rowIsTranscription] at hd
  | transcriptionRow fn fno lang mdl temp dia comb ana ts st chs =>
    have ht : truthy t.id = true := by rw [hidv]; simp [truthy, htid]
    have hgetd : t.id.getD "" = tid := by rw [hidv]; rfl
    unfold updateTranscription
    simp only [ht, Bool.not_true, Bool.false_eq_true, if_false, hgetd, hget]
    unfold updateEntity
    simp only [hget, Option.isSome_some, if_true]

/-- C5 (confirmed): `update_transcription` with an unset (falsy) id fails
without touching the store in either mode; and after a successful
`add_transcription_to_history` on an existing history, calling
`update_transcription` with the object carrying the written-back id
succeeds, in both modes, provided the generated uuid is nonempty and (in
the durable mode) not already a row key of the history's partition. -/
theorem C5_update_requires_add (st : Store) (hid : String) (t : Transcription)
    (fresh : String) :
    (truthy t.id = false → updateTranscription st hid t = (false, st)) ∧
    (∀ h, getHistoryById st hid = some h → fresh ≠ "" → freshIdUnused st hid fresh →
      (addTranscriptionToHistory st hid t fresh).1 = true ∧
      (updateTranscription (addTranscriptionToHistory st hid t fresh).2.1 hid
        (addTranscriptionToHistory st hid t fresh).2.2).1 = true) := by
  constructor
  · intro hf
    unfold updateTranscription
    simp [hf]
  · intro h hh hfr _hun
    have htr : truthy (some fresh) = true := by simp [truthy, hfr]
    cases st with
    | mem m =>
      have hfind : m.histories.find? (fun x => x.id == hid) = some h := hh
      have hp : (h.id == hid) = true := by simpa using List.find?_some hfind
      have hany : (m.histories.any fun x => x.id == hid) = true := by
        rw [List.any_eq_true]
        exact ⟨h, List.mem_of_find?_eq_some hfind, hp⟩
      have hstep : addTranscriptionToHistory (Store.mem m) hid t fresh =
          addTransMemGo m hid (if truthy t.id then t else { t with id := some fresh }) := by
        rw [show addTranscriptionToHistory (Store.mem m) hid t fresh =
            addTransMem m hid t fresh from rfl,
          addTransMem_of_any m hid t fresh hany]
      rw [hstep]
      refine ⟨rfl, ?_⟩
      have htru : truthy (if truthy t.id then t else { t with id := some fresh }).id = true := by
        by_cases hidt : truthy t.id
        · rw [if_pos hidt]; exact hidt
        · rw [if_neg hidt]; exact htr
      refine updateTranscription_mem_true _ hid _
        { h with transcriptions := h.transcriptions ++
            [if truthy t.id then t else { t with id := some fresh }] }
        htru (find?_map_update m.histories hid _ h hfind) ?_
      exact updateMem_true_of_mem _ _
        ⟨_, List.mem_append.mpr (Or.inr (List.mem_cons.mpr (Or.inl rfl))),
          by simp [addTransMemGo]⟩
    | azure tbl =>
      have hmain : ∃ dm, getEntity tbl hid "main" = some dm ∧ rowIsHistory dm = true := by
        have hh2 : (match getEntity tbl hid "main" with
            | some d => historyOfMainRow hid (getTranscriptionsForHistory tbl hid) d
            | none => none) = some h := hh
        rcases hg : getEntity tbl hid "main" with _ | dm
        · rw [hg] at hh2; simp at hh2
        · rw [hg] at hh2
          cases dm with
          | historyRow a b c e f g => exact ⟨_, rfl, rfl⟩
          | transcriptionRow fn fno lang mdl temp dia comb ana ts st chs =>
            simp [historyOfMainRow] at hh2
      rcases hmain with ⟨dm, hgm, hdm⟩
      have hun : getEntity tbl hid fresh = none := _hun
      have hne : fresh ≠ "main" := by
        intro hc
        rw [hc] at hun
        rw [hun] at hgm
        exact Option.noConfusion hgm
      have hstep : addTranscriptionToHistory (Store.azure tbl) hid t fresh =
          addTransAzure tbl hid { t with id := some fresh } fresh := by
        have heq : addTranscriptionToHistory (Store.azure tbl) hid t fresh =
            (match getHistoryById (Store.azure tbl) hid with
             | none => (false, Store.azure tbl, t)
             | some _ => addTransAzure tbl hid { t with id := some fresh } fresh) := rfl
        rw [heq, hh]
      rw [hstep]
      -- run the azure add step by step
      have hcreate : createEntity tbl hid fresh
          (rowOfTranscription { t with id := some fresh }) =
          some { rows := tbl.rows ++
            [((hid, fresh), rowOfTranscription { t with id := some fresh })] } := by
        have hun' : lookupRows tbl.rows hid fresh = none := hun
        unfold createEntity
        simp [getEntity, hun']
      cases dm with
      | transcriptionRow fn fno lang mdl temp dia comb ana ts st chs =>
        simp [rowIsHistory] at hdm
      | historyRow uid sid ty tss vis cnt =>
        have hmain' : getEntity { rows := tbl.rows ++
            [((hid, fresh), rowOfTranscription { t with id := some fresh })] } hid "main" =
            some (.historyRow uid sid ty tss vis cnt) :=
          lookupRows_append_of_some tbl.rows hid "main" _ _ hgm
        have hupdMain : updateEntity { rows := tbl.rows ++
              [((hid, fresh), rowOfTranscription { t with id := some fresh })] }
            hid "main" (.historyRow uid sid ty tss vis (cnt + 1)) =
            some { rows := ((tbl.rows ++
              [((hid, fresh), rowOfTranscription { t with id := some fresh })]).map
                (fun r => if r.1 = (hid, "main")
                  then (r.1, RowData.historyRow uid sid ty tss vis (cnt + 1)) else r)) } := by
          have hm2 : lookupRows (tbl.rows ++
              [((hid, fresh), rowOfTranscription { t with id := some fresh })]) hid "main" =
              some (.historyRow uid sid ty tss vis cnt) := hmain'
          unfold updateEntity
          simp [getEntity, hm2]
        have hrun : addTransAzure tbl hid { t with id := some fresh } fresh =
            (true, Store.azure { rows := ((tbl.rows ++
              [((hid, fresh), rowOfTranscription { t with id := some fresh })]).map
                (fun r => if r.1 = (hid, "main")
                  then (r.1, RowData.historyRow uid sid ty tss vis (cnt + 1)) else r)) },
             { t with id := some fresh }) := by
          unfold addTransAzure
          simp only [hcreate]
          simp only [hmain']
          simp only [hupdMain]
        rw [hrun]
        refine ⟨rfl, ?_⟩
        have hget2 : getEntity { rows := ((tbl.rows ++
            [((hid, fresh), rowOfTranscription { t with id := some fresh })]).map
              (fun r => if r.1 = (hid, "main")
                then (r.1, RowData.historyRow uid sid ty tss vis (cnt + 1)) else r)) }
            hid fresh = some (rowOfTranscription { t with id := some fresh }) := by
          unfold getEntity
          rw [lookupRows_replace_ne _ _ _ _ _ (by simp [hne])]
          exact lookupRows_append_self tbl.rows hid fresh _ hun
        exact updateTranscription_azure_true _ hid _ fresh rfl hfr _ hget2 rfl

/-- C5, witness: on a concrete store holding one history, an update with an
unset id fails leaving the store unchanged, and add-then-update with the
written-back id succeeds; every hypothesis is discharged at the concrete
input. -/
theorem C5_update_requires_add_witness :
    (truthy (Transcription.id {}) = false ∧
      updateTranscription (Store.mem { histories := [{ id := "H", user_id := "u", session_id := "s" }] })
        "H" {} =
        (false, Store.mem { histories := [{ id := "H", user_id := "u", session_id := "s" }] })) ∧
    (getHistoryById (Store.mem { histories := [{ id := "H", user_id := "u", session_id := "s" }] })
        "H" = some { id := "H", user_id := "u", session_id := "s" } ∧
      ("T1" : String) ≠ "" ∧
      (addTranscriptionToHistory
        (Store.mem { histories := [{ id := "H", user_id := "u", session_id := "s" }] })
        "H" {} "T1").1 = true ∧
      (updateTranscription
        (addTranscriptionToHistory
          (Store.mem { histories := [{ id := "H", user_id := "u", session_id := "s" }] })
          "H" {} "T1").2.1
        "H"
        (addTranscriptionToHistory
          (Store.mem { histories := [{ id := "H", user_id := "u", session_id := "s" }] })
          "H" {} "T1").2.2).1 = true) := by
  refine ⟨⟨rfl, ?_⟩, ?_⟩
  · exact (C5_update_requires_add
      (Store.mem { histories := [{ id := "H", user_id := "u", session_id := "s" }] })
      "H" {} "T1").1 rfl
  · have h2 := (C5_update_requires_add
      (Store.mem { histories := [{ id := "H", user_id := "u", session_id := "s" }] })
      "H" {} "T1").2 { id := "H", user_id := "u", session_id := "s" }
      (by decide) (by decide) trivial
    exact ⟨by decide, by decide, h2.1, h2.2⟩

/-- `find?` by id commutes with mapping an id-preserving modification over
the entry with that id. -/
theorem find?_map_modify (g : History → History) (hg : ∀ x, (g x).id = x.id)
    (hs : List History) (hid : String) (h0 : History)
    (hfind : hs.find? (fun h => h.id == hid) = some h0) :
    (hs.map (fun x => if x.id == hid then g x else x)).find?
      (fun h => h.id == hid) = some (g h0) := by
  induction hs with
  | nil => simp at hfind
  | cons a as ih =>
    by_cases ha : (a.id == hid) = true
    · simp only [List.find?_cons, ha] at hfind
      have haeq : a = h0 := by simpa using hfind
      subst haeq
      simp only [List.map_cons, if_pos ha, List.find?_cons]
      have hb : ((g a).id == hid) = true := by rw [hg]; exact ha
      simp only [hb]
    · have ha' : (a.id == hid) = false := by simpa using ha
      simp only [List.find?_cons, ha'] at hfind
      simp only [List.map_cons, ha', Bool.false_eq_true, if_false, List.find?_cons]
      exact ih hfind

/-- Head step of the in-memory update loop when the head matches. -/
theorem updateMem_cons_pos (t a : Transcription) (as : List Transcription)
    (h : (a.id == t.id) = true) :
    updateMemTranscriptions t (a :: as) =
      (true, { a with status := t.status, transcript_chunks := t.transcript_chunks, timestamp := t.timestamp } :: as) := by
  simp [updateMemTranscriptions, h]

/-- Head step of the in-memory update loop when the head does not match. -/
theorem updateMem_cons_neg (t a : Transcription) (as : List Transcription)
    (h : (a.id == t.id) = false) :
    updateMemTranscriptions t (a :: as) =
      ((updateMemTranscriptions t as).1, a :: (updateMemTranscriptions t as).2) := by
  simp [updateMemTranscriptions, h]

/-- The in-memory update loop rewrites the first entry carrying the sought
id to the intended final state and leaves it findable. -/
theorem updateMem_find_updated (t : Transcription) (tid : String)
    (hidv : t.id = some tid) (l : List Transcription) (old : Transcription)
    (hfind : l.find? (fun x => x.id == some tid) = some old) :
    ((updateMemTranscriptions t l).2).find? (fun x => x.id == some tid) =
      some { old with status := t.status, transcript_chunks := t.transcript_chunks, timestamp := t.timestamp } := by
  induction l with
  | nil => simp at hfind
  | cons a as ih =>
    by_cases ha : (a.id == some tid) = true
    · simp only [List.find?_cons, ha] at hfind
      have haeq : a = old := by simpa using hfind
      subst haeq
      have ha2 : (a.id == t.id) = true := by rw [hidv]; exact ha
      rw [updateMem_cons_pos t a as ha2]
      have hb : (({ a with status := t.status, transcript_chunks := t.transcript_chunks, timestamp := t.timestamp } : Transcription).id == some tid) = true := by
        simpa using ha
      simp only [List.find?_cons, hb]
    · have ha' : (a.id == some tid) = false := by simpa using ha
      simp only [List.find?_cons, ha'] at hfind
      have ha2 : (a.id == t.id) = false := by rw [hidv]; exact ha'
      rw [updateMem_cons_neg t a as ha2]
      simp only [List.find?_cons, ha']
      exact ih hfind

/-- C9 (confirmed): every successful `update_transcription` changes only
the `status`, `transcript_chunks` and `timestamp` fields of the stored
record; its id and all other persisted fields (file names, language,
model, temperature, diarization, combine, analysis) are unchanged, in both
the durable and the in-memory mode. -/
theorem C9_update_frame (st : Store) (hid tid : String) (t old : Transcription)
    (hidv : t.id = some tid)
    (hold : lookupStoredTranscription st hid tid = some old)
    (hsucc : (updateTranscription st hid t).1 = true) :
    lookupStoredTranscription (updateTranscription st hid t).2 hid tid =
      some { old with status := t.status, transcript_chunks := t.transcript_chunks, timestamp := t.timestamp } := by
  by_cases ht : truthy t.id = true
  case neg =>
    have ht' : truthy t.id = false := by simpa using ht
    have hfail : updateTranscription st hid t = (false, st) := by
      unfold updateTranscription
      simp [ht']
    rw [hfail] at hsucc
    simp at hsucc
  case pos =>
  cases st with
  | mem m =>
    have hold2 : (match m.histories.find? (fun h => h.id == hid) with
        | some h => h.transcriptions.find? (fun x => x.id == some tid)
        | none => none) = some old := hold
    rcases hf : m.histories.find? (fun x => x.id == hid) with _ | h0
    · rw [hf] at hold2; simp at hold2
    · rw [hf] at hold2
      simp only at hold2
      have hr1 : (updateMemTranscriptions t h0.transcriptions).1 = true := by
        refine updateMem_true_of_mem t h0.transcriptions ⟨old, List.mem_of_find?_eq_some hold2, ?_⟩
        have := List.find?_some hold2
        rw [hidv]
        simpa using this
      have hupd : updateTranscription (Store.mem m) hid t =
          (true, Store.mem { m with histories := m.histories.map (fun x =>
            if x.id == hid
            then { x with transcriptions := (updateMemTranscriptions t h0.transcriptions).2 }
            else x) }) := by
        unfold updateTranscription
        simp [ht, hf, hr1]
      rw [hupd]
      have hfind2 := find?_map_modify
        (fun x => { x with transcriptions := (updateMemTranscriptions t h0.transcriptions).2 })
        (fun _ => rfl) m.histories hid h0 hf
      have hgoal : (match (m.histories.map (fun x =>
          if x.id == hid
          then { x with transcriptions := (updateMemTranscriptions t h0.transcriptions).2 }
          else x)).find? (fun h => h.id == hid) with
          | some h => h.transcriptions.find? (fun x => x.id == some tid)
          | none => none) =
          some { old with status := t.status, transcript_chunks := t.transcript_chunks, timestamp := t.timestamp } := by
        rw [hfind2]
        simp only
        exact updateMem_find_updated t tid hidv h0.transcriptions old hold2
      exact hgoal
  | azure tbl =>
    have hold2 : (match getEntity tbl hid tid with
        | some d => transcriptionOfRow tid d
        | none => none) = some old := hold
    rcases hg : getEntity tbl hid tid with _ | d
    · rw [hg] at hold2; simp at hold2
    · rw [hg] at hold2
      cases d with
      | historyRow a b c e f g => simp [transcriptionOfRow] at hold2
      | transcriptionRow fn fno lang mdl temp dia comb ana ts sta chs =>
        simp only [transcriptionOfRow, Option.some.injEq] at hold2
        have hgd : t.id.getD "" = tid := by rw [hidv]; rfl
        have hsome : (lookupRows tbl.rows hid tid).isSome = true := by
          have hg' : lookupRows tbl.rows hid tid =
              some (.transcriptionRow fn fno lang mdl temp dia comb ana ts sta chs) := hg
          rw [hg']
          rfl
        have hupd : updateTranscription (Store.azure tbl) hid t =
            (true, Store.azure { rows := (tbl.rows.map (fun r =>
              if r.1 = (hid, tid)
              then (r.1, RowData.transcriptionRow fn fno lang mdl temp dia comb ana
                t.timestamp t.status t.transcript_chunks)
              else r)) }) := by
          have hsome2 : (getEntity tbl hid tid).isSome = true := by rw [hg]; rfl
          unfold updateTranscription updateEntity
          simp [ht, hgd, hg, hsome2]
        rw [hupd]
        have hget2 : getEntity { rows := (tbl.rows.map (fun r =>
            if r.1 = (hid, tid)
            then (r.1, RowData.transcriptionRow fn fno lang mdl temp dia comb ana
              t.timestamp t.status t.transcript_chunks)
            else r)) } hid tid =
            some (RowData.transcriptionRow fn fno lang mdl temp dia comb ana
              t.timestamp t.status t.transcript_chunks) :=
          lookupRows_replace_self tbl.rows hid tid _ hsome
        have hgoal : (match getEntity { rows := (tbl.rows.map (fun r =>
            if r.1 = (hid, tid)
            then (r.1, RowData.transcriptionRow fn fno lang mdl temp dia comb ana
              t.timestamp t.status t.transcript_chunks)
            else r)) } hid tid with
            | some d => transcriptionOfRow tid d
            | none => none) =
            some { old with status := t.status, transcript_chunks := t.transcript_chunks, timestamp := t.timestamp } := by
          rw [hget2]
          simp only [transcriptionOfRow, Option.some.injEq]
          rw [← hold2]
        exact hgoal

/-- C9, witness: the theorem at a concrete in-memory store holding one
history with one stored transcription, updated to `completed` with one
chunk; hypotheses discharged at the concrete input. -/
theorem C9_update_frame_witness :
    (tDoneC9.id = some "T" ∧
      lookupStoredTranscription memC9 "H" "T" = some tPendC9 ∧
      (updateTranscription memC9 "H" tDoneC9).1 = true) ∧
    lookupStoredTranscription (updateTranscription memC9 "H" tDoneC9).2 "H" "T" =
      some { tPendC9 with status := tDoneC9.status, transcript_chunks := tDoneC9.transcript_chunks, timestamp := tDoneC9.timestamp } := by
  refine ⟨⟨rfl, by decide, by decide⟩, ?_⟩
  exact C9_update_frame memC9 "H" "T" tDoneC9 tPendC9 rfl (by decide) (by decide)

/-- C10, witness: in a concrete in-memory store a pre-set id
survives the call, while the concrete durable store overwrites the same
pre-set id with the fresh uuid; both hypotheses are discharged at the
concrete inputs. -/
theorem C10_add_assigns_id_witness :
    ((addTranscriptionToHistory
        (Store.mem { histories := [{ id := "H", user_id := "u", session_id := "s" }] })
        "H" { id := some "keep" } "fresh1").1 = true ∧
      (addTranscriptionToHistory
        (Store.mem { histories := [{ id := "H", user_id := "u", session_id := "s" }] })
        "H" { id := some "keep" } "fresh1").2.2.id = some "keep") ∧
    ((addTranscriptionToHistory
        (Store.azure { rows := [(("H", "main"), .historyRow "u" "s" "transcription" "ts" true 0)] })
        "H" { id := some "keep" } "fresh1").1 = true ∧
      (addTranscriptionToHistory
        (Store.azure { rows := [(("H", "main"), .historyRow "u" "s" "transcription" "ts" true 0)] })
        "H" { id := some "keep" } "fresh1").2.2.id = some "fresh1") := by
  refine ⟨⟨by decide, ?_⟩, ⟨by decide, ?_⟩⟩
  · have := (C10_add_assigns_id
      (Store.mem { histories := [{ id := "H", user_id := "u", session_id := "s" }] })
      "H" { id := some "keep" } "fresh1" (by decide)).2.2
      _ rfl (by decide)
    simpa using this
  · have := (C10_add_assigns_id
      (Store.azure { rows := [(("H", "main"), .historyRow "u" "s" "transcription" "ts" true 0)] })
      "H" { id := some "keep" } "fresh1" (by decide)).2.1
      _ rfl (by decide)
    simpa using this

/-- A callback event that is not a legacy `transcript` event leaves a
`failed` status untouched. -/
theorem callbackStep_failed (t : Transcription) (e : Event)
    (ht : t.status = "failed") (he : e.event_type ≠ "transcript") :
    (callbackStep t e).status = "failed" := by
  unfold callbackStep
  split_ifs <;> simp_all

/-- No callback event ever sets the status to `pending`. -/
theorem callbackStep_pending (t : Transcription) (e : Event)
    (h : (callbackStep t e).status = "pending") : t.status = "pending" := by
  unfold callbackStep at h
  split_ifs at h <;> simp_all

/-- C1, counterexample: feeding the submit callback an `error` event
followed by a legacy `transcript` event leaves the status `completed` —
after `failed` was reached, a later event changed the status, contradicting
the claim as stated. -/
theorem C1_counterexample :
    (applyEvents pendingRecord [evError]).status = "failed" ∧
    (applyEvents pendingRecord [evError, evTranscript]).status = "completed" ∧
    ("completed" : String) ≠ "failed" := by
  refine ⟨rfl, rfl, by decide⟩

/-- C1 (amended): for event sequences containing no legacy `transcript`
event, once the status is `failed` no later event changes it; and no event
of any type ever moves the status back to `pending`.  (The legacy
`transcript` branch of the callback sets `completed` unconditionally, even
from `failed` — the exception the counterexample exhibits.) -/
theorem C1_status_monotone :
    (∀ (t : Transcription) (es : List Event), t.status = "failed" →
      (∀ e ∈ es, e.event_type ≠ "transcript") →
      (applyEvents t es).status = "failed") ∧
    (∀ (t : Transcription) (e : Event),
      (callbackStep t e).status = "pending" → t.status = "pending") := by
  constructor
  · intro t es
    induction es generalizing t with
    | nil => intro ht _; exact ht
    | cons a as ih =>
      intro ht hall
      have ha := hall a (List.mem_cons_self a as)
      have hstep := callbackStep_failed t a ht ha
      exact ih (callbackStep t a) hstep (fun e he => hall e (List.mem_cons_of_mem a he))
  · exact callbackStep_pending

/-- C1, witness: the amended theorem applied to a concrete `failed` record
and a concrete `transcript`-free event sequence, and to a concrete
`transcribed` step: hypotheses hold and the conclusions evaluate. -/
theorem C1_status_monotone_witness :
    (failedRecord.status = "failed" ∧
      (∀ e ∈ [evClosing, evTranscribed, evError], e.event_type ≠ "transcript")) ∧
    (applyEvents failedRecord [evClosing, evTranscribed, evError]).status = "failed" ∧
    ((callbackStep pendingRecord evTranscribed).status = "pending" ∧
      pendingRecord.status = "pending") :=
  ⟨⟨rfl, by decide⟩,
   C1_status_monotone.1 failedRecord [evClosing, evTranscribed, evError] rfl (by decide),
   ⟨rfl, C1_status_monotone.2 pendingRecord evTranscribed rfl⟩⟩

/-- C2, counterexample: an `error` event does not end the event stream —
with the worker emitting `error` and then `closing`, the stream yields
both events, not just the `error` one as the claim requires. -/
theorem C2_counterexample :
    eventStream [evError, evClosing] = [evError, evClosing] ∧
    eventStream [evError, evClosing] ≠ [evError] := by
  refine ⟨rfl, by decide⟩

/-- C2 (amended): the stream yields events in exactly emission order and
terminates immediately after the first `closing` or `session_stopped`
event; those two event types are the only terminal ones — in particular an
`error` event does not end the stream. -/
theorem C2_stream_terminates (pre rest : List Event) (t : Event)
    (hpre : ∀ e ∈ pre, isStreamTerminal e = false)
    (ht : isStreamTerminal t = true) :
    eventStream (pre ++ t :: rest) = pre ++ [t] := by
  induction pre with
  | nil => simp [eventStream, ht]
  | cons a as ih =>
    have ha : isStreamTerminal a = false := hpre a (List.mem_cons_self a as)
    simp only [List.cons_append, eventStream, ha, Bool.false_eq_true, if_false,
      List.append_eq]
    rw [ih (fun e he => hpre e (List.mem_cons_of_mem a he))]

/-- C2, witness: the amended theorem at a concrete emission sequence whose
first terminal event is preceded by an `error` event. -/
theorem C2_stream_terminates_witness :
    ((∀ e ∈ [evError, evTranscribed], isStreamTerminal e = false) ∧
      isStreamTerminal evClosing = true) ∧
    eventStream ([evError, evTranscribed] ++ evClosing :: [evTranscribed]) =
      [evError, evTranscribed] ++ [evClosing] :=
  ⟨⟨by decide, by decide⟩,
   C2_stream_terminates [evError, evTranscribed] [evTranscribed] evClosing
     (by decide) (by decide)⟩

/-- C4 (confirmed): when every attempt hits an optimistic-concurrency
precondition failure (HTTP 412), `_update_transcription_with_retry` makes
exactly 3 attempts — each beginning with a fresh entity read — sleeps 0.1 s
and then 0.2 s between them (base 100 ms, doubling), and returns `False`
instead of raising. -/
theorem C4_retry_exhausts_three_attempts (outcome : Nat → AttemptOutcome)
    (h : ∀ i < 3, outcome i = AttemptOutcome.precondFailed) :
    updateTranscriptionWithRetry outcome =
      { result := false, attempts := 3, sleeps := [1 / 10, 1 / 5] } := by
  have h0 := h 0 (by norm_num)
  have h1 := h 1 (by norm_num)
  have h2 := h 2 (by norm_num)
  simp only [updateTranscriptionWithRetry, retryGo, h0, h1, h2, backoffSleep]
  norm_num

/-- C4, witness: the theorem at the oracle that fails the precondition on
every attempt. -/
theorem C4_retry_exhausts_three_attempts_witness :
    (∀ i < 3, (fun _ => AttemptOutcome.precondFailed) i = AttemptOutcome.precondFailed) ∧
    updateTranscriptionWithRetry (fun _ => AttemptOutcome.precondFailed) =
      { result := false, attempts := 3, sleeps := [1 / 10, 1 / 5] } :=
  ⟨fun _ _ => rfl, C4_retry_exhausts_three_attempts _ (fun _ _ => rfl)⟩

/-- C8 (confirmed): a push waits the fixed 0.5 s, returns exactly the
buffered results at most 5 seconds old at that moment (and only results
that were in the buffer), and prunes the buffer so that every retained
entry is at most 30 seconds old — retaining every such entry. -/
theorem C8_push_windows (s : LiveSession) (now : ℚ) :
    pushWaitSeconds = 1 / 2 ∧
    (∀ r ∈ (pushAudioToSession s now).results, now - r.timestamp ≤ 5 ∧ r ∈ s.results) ∧
    (∀ r ∈ (pushAudioToSession s now).sessionAfter.results, now - r.timestamp ≤ 30) ∧
    (∀ r ∈ s.results, now - r.timestamp ≤ 30 →
      r ∈ (pushAudioToSession s now).sessionAfter.results) := by
  refine ⟨rfl, ?_, ?_, ?_⟩
  · intro r hr
    simp only [pushAudioToSession, List.mem_filter, decide_eq_true_eq] at hr
    exact ⟨hr.2, hr.1⟩
  · intro r hr
    simp only [pushAudioToSession, List.mem_filter, decide_eq_true_eq] at hr
    exact hr.2
  · intro r hr hle
    simp only [pushAudioToSession, List.mem_filter, decide_eq_true_eq]
    exact ⟨hr, hle⟩

/-- C8, witness: the theorem at a concrete session holding one fresh and
one stale result, at a concrete current time. -/
theorem C8_push_windows_witness :
    (100 : ℚ) -
        (⟨"Mluvčí 1", "ahoj", 0, 1, 99, 95 / 100, none⟩ : LiveResult).timestamp ≤ 5 ∧
    ((100 : ℚ) -
          (⟨"Mluvčí 1", "ahoj", 0, 1, 99, 95 / 100, none⟩ : LiveResult).timestamp ≤ 5 ∧
        (⟨"Mluvčí 1", "ahoj", 0, 1, 99, 95 / 100, none⟩ : LiveResult) ∈
          ({ results := [⟨"Mluvčí 1", "ahoj", 0, 1, 99, 95 / 100, none⟩,
                          ⟨"Mluvčí 2", "stale", 0, 1, 1, 95 / 100, none⟩],
             created_at := 0 } : LiveSession).results) :=
  ⟨by norm_num,
   (C8_push_windows
      { results := [⟨"Mluvčí 1", "ahoj", 0, 1, 99, 95 / 100, none⟩,
                    ⟨"Mluvčí 2", "stale", 0, 1, 1, 95 / 100, none⟩],
        created_at := 0 } 100).2.1
     ⟨"Mluvčí 1", "ahoj", 0, 1, 99, 95 / 100, none⟩
     (by norm_num [pushAudioToSession, List.filter])⟩

/-- Membership in an insertion step. -/
theorem mem_insertLe {α : Type} (le : α → α → Bool) (a x : α) (l : List α) :
    x ∈ insertLe le a l ↔ x = a ∨ x ∈ l := by
  induction l with
  | nil => simp [insertLe]
  | cons b bs ih =>
    by_cases h : le a b = true
    · simp [insertLe, h, List.mem_cons]
    · simp only [insertLe, h, Bool.false_eq_true, if_false, List.mem_cons, ih]
      tauto

/-- Membership is preserved by the insertion sort. -/
theorem mem_sortLe {α : Type} (le : α → α → Bool) (x : α) (l : List α) :
    x ∈ sortLe le l ↔ x ∈ l := by
  induction l with
  | nil => simp [sortLe]
  | cons a as ih =>
    simp [sortLe, mem_insertLe, ih, List.mem_cons]

/-- Inserting into a sorted list keeps it sorted, for a total transitive
comparison. -/
theorem pairwise_insertLe {α : Type} (le : α → α → Bool)
    (htrans : ∀ a b c, le a b = true → le b c = true → le a c = true)
    (htot : ∀ a b, (le a b || le b a) = true)
    (a : α) (l : List α) (hl : l.Pairwise (fun x y => le x y = true)) :
    (insertLe le a l).Pairwise (fun x y => le x y = true) := by
  induction l with
  | nil => simp [insertLe]
  | cons b bs ih =>
    rcases List.pairwise_cons.mp hl with ⟨hb, hbs⟩
    by_cases h : le a b = true
    · simp only [insertLe, h, if_true]
      refine List.pairwise_cons.mpr ⟨?_, hl⟩
      intro x hx
      rcases List.mem_cons.mp hx with rfl | hx'
      · exact h
      · exact htrans a b x h (hb x hx')
    · have hba : le b a = true := by
        rcases Bool.or_eq_true_iff.mp (htot a b) with h1 | h1
        · exact absurd h1 h
        · exact h1
      simp only [insertLe, h, Bool.false_eq_true, if_false]
      refine List.pairwise_cons.mpr ⟨?_, ih hbs⟩
      intro x hx
      rcases (mem_insertLe le a x bs).mp hx with rfl | hx'
      · exact hba
      · exact hb x hx'

/-- The insertion sort sorts, for a total transitive comparison. -/
theorem pairwise_sortLe {α : Type} (le : α → α → Bool)
    (htrans : ∀ a b c, le a b = true → le b c = true → le a c = true)
    (htot : ∀ a b, (le a b || le b a) = true)
    (l : List α) :
    (sortLe le l).Pairwise (fun x y => le x y = true) := by
  induction l with
  | nil => simp [sortLe]
  | cons a as ih => exact pairwise_insertLe le htrans htot a (sortLe le as) ih

/-- The lexicographic comparison is total. -/
theorem charListLe_total : ∀ (a b : List Char), (charListLe a b || charListLe b a) = true
  | [], _ => by simp [charListLe]
  | _ :: _, [] => by simp [charListLe]
  | a :: as, b :: bs => by
    simp only [charListLe]
    rcases Nat.lt_trichotomy a.toNat b.toNat with h | h | h
    · simp [h]
    · have h1 : ¬ a.toNat < b.toNat := by omega
      have h2 : ¬ b.toNat < a.toNat := by omega
      simp only [h1, h2, if_false]
      exact charListLe_total as bs
    · have h1 : ¬ a.toNat < b.toNat := by omega
      simp [h, h1]

/-- The lexicographic comparison is transitive. -/
theorem charListLe_trans : ∀ (a b c : List Char),
    charListLe a b = true → charListLe b c = true → charListLe a c = true
  | [], _, _ => by intro _ _; simp [charListLe]
  | _ :: _, [], _ => by intro h _; simp [charListLe] at h
  | _ :: _, _ :: _, [] => by intro _ h; simp [charListLe] at h
  | a :: as, b :: bs, c :: cs => by
    intro h1 h2
    simp only [charListLe] at h1 h2 ⊢
    rcases Nat.lt_trichotomy a.toNat b.toNat with hab | hab | hab
    · rcases Nat.lt_trichotomy b.toNat c.toNat with hbc | hbc | hbc
      · have hac : a.toNat < c.toNat := Nat.lt_trans hab hbc
        simp [hac]
      · have hac : a.toNat < c.toNat := hbc ▸ hab
        simp [hac]
      · have h3 : ¬ b.toNat < c.toNat := by omega
        have h4 : c.toNat < b.toNat := hbc
        simp [h3, h4] at h2
    · rcases Nat.lt_trichotomy b.toNat c.toNat with hbc | hbc | hbc
      · have hac : a.toNat < c.toNat := hab ▸ hbc
        simp [hac]
      · have h1' : charListLe as bs = true := by
          have hnl1 : ¬ a.toNat < b.toNat := by omega
          have hnl2 : ¬ b.toNat < a.toNat := by omega
          simpa [hnl1, hnl2] using h1
        have h2' : charListLe bs cs = true := by
          have hnl1 : ¬ b.toNat < c.toNat := by omega
          have hnl2 : ¬ c.toNat < b.toNat := by omega
          simpa [hnl1, hnl2] using h2
        have hnl1 : ¬ a.toNat < c.toNat := by omega
        have hnl2 : ¬ c.toNat < a.toNat := by omega
        simp only [hnl1, hnl2, if_false]
        exact charListLe_trans as bs cs h1' h2'
      · have h3 : ¬ b.toNat < c.toNat := by omega
        have h4 : c.toNat < b.toNat := hbc
        simp [h3, h4] at h2
    · have h3 : ¬ a.toNat < b.toNat := by omega
      have h4 : b.toNat < a.toNat := hab
      simp [h3, h4] at h1

/-- String order totality. -/
theorem strLe_total (a b : String) : (strLe a b || strLe b a) = true :=
  charListLe_total a.data b.data

/-- String order transitivity. -/
theorem strLe_trans (a b c : String) (h1 : strLe a b = true)
    (h2 : strLe b c = true) : strLe a c = true :=
  charListLe_trans a.data b.data c.data h1 h2

/-- C6, counterexample: in the in-memory fallback mode `get_all_history`
returns the records in insertion order — here the older record first, so
not sorted by creation timestamp descending — and with their stored
transcription collections populated, contradicting the claim that both
modes return shallow records sorted newest-first. -/
theorem C6_counterexample :
    getAllHistory memC6 true 100 = [h1C6, h2C6] ∧
    strLe h2C6.timestamp h1C6.timestamp = false ∧
    h1C6.transcriptions ≠ [] := by
  refine ⟨rfl, by decide, by decide⟩

/-- C6 (amended): `get_all_history` always returns at most `limit` records
and, when `visible_only` is set, only visible ones; in the durable mode the
records are additionally sorted by creation timestamp descending with their
transcription collections empty, while in the in-memory fallback they come
back in insertion order (a subsequence of the stored dict values) with
their stored transcription collections. -/
theorem C6_get_all_history (st : Store) (v : Bool) (limit : Nat) :
    (getAllHistory st v limit).length ≤ limit ∧
    (v = true → ∀ h ∈ getAllHistory st v limit, h.visible = true) ∧
    (∀ tbl, st = Store.azure tbl →
      (getAllHistory st v limit).Pairwise (fun a b => strLe b.timestamp a.timestamp = true) ∧
      (∀ h ∈ getAllHistory st v limit, h.transcriptions = [])) ∧
    (∀ m, st = Store.mem m → List.Sublist (getAllHistory st v limit) m.histories) := by
  refine ⟨?_, ?_, ?_, ?_⟩
  · cases st with
    | mem m => exact List.length_take_le _ _
    | azure tbl =>
      have heq : getAllHistory (Store.azure tbl) v limit =
          ((sortLe tsDescLe (queryRows tbl
            (fun _ d => rowIsHistory d && (!v || rowVisible d)))).take limit).filterMap
            shallowHistory := rfl
      rw [heq]
      exact le_trans (List.length_filterMap_le _ _) (List.length_take_le _ _)
  · rintro rfl h hmem
    cases st with
    | mem m =>
      have heq : getAllHistory (Store.mem m) true limit =
          (m.histories.filter (fun x => x.visible)).take limit := rfl
      rw [heq] at hmem
      exact (List.mem_filter.mp (List.mem_of_mem_take hmem)).2
    | azure tbl =>
      have heq : getAllHistory (Store.azure tbl) true limit =
          ((sortLe tsDescLe (queryRows tbl
            (fun _ d => rowIsHistory d && (!true || rowVisible d)))).take limit).filterMap
            shallowHistory := rfl
      rw [heq] at hmem
      rcases List.mem_filterMap.mp hmem with ⟨r, hr, hfr⟩
      have hr2 : r ∈ queryRows tbl (fun _ d => rowIsHistory d && (!true || rowVisible d)) :=
        (mem_sortLe _ _ _).mp (List.mem_of_mem_take hr)
      have hr3 : r ∈ tbl.rows.filter
          (fun x => rowIsHistory x.2 && (!true || rowVisible x.2)) :=
        (mem_sortLe _ _ _).mp hr2
      have hpred := (List.mem_filter.mp hr3).2
      simp only [shallowHistory] at hfr
      cases hd : r.2 with
      | transcriptionRow fn fno lang mdl temp dia comb ana ts sta chs =>
        rw [hd] at hfr
        simp [historyOfMainRow] at hfr
      | historyRow uid sid ty ts vis cnt =>
        rw [hd] at hfr
        simp only [historyOfMainRow, Option.some.injEq] at hfr
        rw [hd] at hpred
        have hvis : rowVisible (RowData.historyRow uid sid ty ts vis cnt) = true := by
          simpa [rowIsHistory] using hpred
        rw [← hfr]
        simpa [rowVisible] using hvis
  · rintro tbl rfl
    have heq : getAllHistory (Store.azure tbl) v limit =
        ((sortLe tsDescLe (queryRows tbl
          (fun _ d => rowIsHistory d && (!v || rowVisible d)))).take limit).filterMap
          shallowHistory := rfl
    rw [heq]
    constructor
    · have hp1 : (sortLe tsDescLe (queryRows tbl
          (fun _ d => rowIsHistory d && (!v || rowVisible d)))).Pairwise
          (fun x y => tsDescLe x y = true) := by
        refine pairwise_sortLe tsDescLe ?_ ?_ _
        · intro a b c h1 h2
          exact strLe_trans _ _ _ h2 h1
        · intro a b
          exact strLe_total (rowTimestamp b.2) (rowTimestamp a.2)
      have hp2 := List.Pairwise.sublist (List.take_sublist limit _) hp1
      refine List.Pairwise.filterMap shallowHistory ?_ hp2
      intro r r' hrel x hx y hy
      rw [Option.mem_def] at hx hy
      simp only [shallowHistory] at hx hy
      cases hdr : r.2 with
      | transcriptionRow fn fno lang mdl temp dia comb ana ts sta chs =>
        rw [hdr] at hx; simp [historyOfMainRow] at hx
      | historyRow uid sid ty ts vis cnt =>
        cases hdr' : r'.2 with
        | transcriptionRow fn fno lang mdl temp dia comb ana ts2 sta chs =>
          rw [hdr'] at hy; simp [historyOfMainRow] at hy
        | historyRow uid2 sid2 ty2 ts2 vis2 cnt2 =>
          rw [hdr] at hx
          rw [hdr'] at hy
          simp only [historyOfMainRow, Option.some.injEq] at hx hy
          unfold tsDescLe at hrel
          rw [hdr, hdr'] at hrel
          rw [← hx, ← hy]
          simpa [rowTimestamp] using hrel
    · intro h hmem
      rcases List.mem_filterMap.mp hmem with ⟨r, _, hfr⟩
      simp only [shallowHistory] at hfr
      cases hd : r.2 with
      | transcriptionRow fn fno lang mdl temp dia comb ana ts sta chs =>
        rw [hd] at hfr
        simp [historyOfMainRow] at hfr
      | historyRow uid sid ty ts vis cnt =>
        rw [hd] at hfr
        simp only [historyOfMainRow, Option.some.injEq] at hfr
        rw [← hfr]
  · rintro m rfl
    cases v with
    | true =>
      have heq : getAllHistory (Store.mem m) true limit =
          (m.histories.filter (fun x => x.visible)).take limit := rfl
      rw [heq]
      exact List.Sublist.trans (List.take_sublist _ _) (List.filter_sublist _)
    | false =>
      have heq : getAllHistory (Store.mem m) false limit =
          m.histories.take limit := rfl
      rw [heq]
      exact List.take_sublist _ _

/-- C6, witness: the amended theorem at the concrete in-memory and durable
fixtures, its implications discharged at those stores. -/
theorem C6_get_all_history_witness :
    ((true = true) ∧ (∀ h ∈ getAllHistory memC6 true 100, h.visible = true)) ∧
    (∀ h ∈ getAllHistory azC6 true 100, h.transcriptions = []) ∧
    List.Sublist (getAllHistory memC6 true 100)
      [h1C6, h2C6] := by
  refine ⟨⟨rfl, ?_⟩, ?_, ?_⟩
  · exact (C6_get_all_history memC6 true 100).2.1 rfl
  · exact ((C6_get_all_history azC6 true 100).2.2.1 azTblC6 rfl).2
  · exact (C6_get_all_history memC6 true 100).2.2.2
      { histories := [h1C6, h2C6] } rfl

/-- The submit endpoint on a reused session history. -/
theorem submit_reuse (st : Store) (p : SubmitParams)
    (f1 f2 f3 ts : String) (blob : Option String) (h0 : History)
    (hcond : (truthy p.user_id && truthy p.session_id) = true)
    (hl : (getSessionHistory st (p.session_id.getD "") false).getLast? = some h0) :
    submitTranscription st p f1 f2 f3 ts blob =
      { store := (addTranscriptionToHistory st h0.id (submitTrec p) f3).2.1,
        historyRecord := some h0, historyCreated := false,
        transcriptionAdded := (addTranscriptionToHistory st h0.id (submitTrec p) f3).1,
        workerStarted := (dispatchModel p.model blob).1,
        streamHttpError := (dispatchModel p.model blob).2 } := by
  unfold submitTranscription
  simp [hcond, hl]

/-- The submit endpoint when no history exists yet for the session. -/
theorem submit_create (st : Store) (p : SubmitParams)
    (f1 f2 f3 ts : String) (blob : Option String)
    (hcond : (truthy p.user_id && truthy p.session_id) = true)
    (hl : (getSessionHistory st (p.session_id.getD "") false).getLast? = none) :
    submitTranscription st p f1 f2 f3 ts blob =
      { store := (addTranscriptionToHistory
          (addHistoryRecordMain st f1 f2 ts (p.user_id.getD "") (p.session_id.getD "")).2
          (addHistoryRecordMain st f1 f2 ts (p.user_id.getD "") (p.session_id.getD "")).1.id
          (submitTrec p) f3).2.1,
        historyRecord :=
          some (addHistoryRecordMain st f1 f2 ts (p.user_id.getD "") (p.session_id.getD "")).1,
        historyCreated := true,
        transcriptionAdded := (addTranscriptionToHistory
          (addHistoryRecordMain st f1 f2 ts (p.user_id.getD "") (p.session_id.getD "")).2
          (addHistoryRecordMain st f1 f2 ts (p.user_id.getD "") (p.session_id.getD "")).1.id
          (submitTrec p) f3).1,
        workerStarted := (dispatchModel p.model blob).1,
        streamHttpError := (dispatchModel p.model blob).2 } := by
  unfold submitTranscription
  simp [hcond, hl]

/-- The submit endpoint without history attachment. -/
theorem submit_detached (st : Store) (p : SubmitParams)
    (f1 f2 f3 ts : String) (blob : Option String)
    (hcond : (truthy p.user_id && truthy p.session_id) = false) :
    submitTranscription st p f1 f2 f3 ts blob =
      { store := st, historyRecord := none, historyCreated := false,
        transcriptionAdded := false,
        workerStarted := (dispatchModel p.model blob).1,
        streamHttpError := (dispatchModel p.model blob).2 } := by
  unfold submitTranscription
  simp [hcond]

/-- An invalid model falls through every dispatch branch to the HTTP 400
raise, with no thread created. -/
theorem dispatchModel_invalid (model : Option String) (blob : Option String)
    (hm : ∀ s, model = some s → s ≠ "llm" ∧ s ≠ "whisper" ∧ s ≠ "msft") :
    dispatchModel model blob = (false, some 400) := by
  unfold dispatchModel
  split <;> simp_all

/-- Inserting a history into the memory dict leaves a record with its id
findable by `any`. -/
theorem any_dictInsertHistory (hs : List History) (h : History) :
    ((dictInsertHistory hs h).any (fun x => x.id == h.id)) = true := by
  unfold dictInsertHistory
  by_cases ha : (hs.any (fun x => x.id == h.id)) = true
  · rw [if_pos ha]
    rw [List.any_eq_true] at ha ⊢
    rcases ha with ⟨x, hx, hpx⟩
    refine ⟨h, ?_, by simp⟩
    rw [List.mem_map]
    exact ⟨x, hx, by simp [hpx]⟩
  · rw [if_neg ha]
    rw [List.any_eq_true]
    exact ⟨h, List.mem_append.mpr (Or.inr (List.mem_cons.mpr (Or.inl rfl))), by simp⟩

/-- C7, counterexample: with two histories for session `"S"` in the
durable store — the more recent one under the lexicographically smaller
partition key — the submit endpoint reuses the first-created (older)
record, because the session query returns rows in storage key order and
the code takes the last element; the most recently created record is a
different element of the same query result. -/
theorem C7_counterexample :
    (submitTranscription azC7 pC7 "fh" "fb" "ft" "2024-01-03" none).historyRecord =
      some hOldC7 ∧
    hRecentC7 ∈ getSessionHistory azC7 "S" false ∧
    strLe hRecentC7.timestamp hOldC7.timestamp = false := by
  refine ⟨by decide, by decide, by decide⟩

/-- C7 (amended): when both identifiers are supplied, the submit endpoint
reuses the last element of the session-history query (ignoring the visible
flag) whenever that query is nonempty — in the in-memory mode this is the
most recently created record, but in the durable mode the query returns
rows in storage key order, so the reused record need not be the most
recently created — and creates a new record only when no history exists
for the session. -/
theorem C7_reuse_policy (st : Store) (p : SubmitParams)
    (f1 f2 f3 ts : String) (blob : Option String)
    (hu : truthy p.user_id = true) (hsid : truthy p.session_id = true) :
    (getSessionHistory st (p.session_id.getD "") false ≠ [] →
      (submitTranscription st p f1 f2 f3 ts blob).historyCreated = false ∧
      (submitTranscription st p f1 f2 f3 ts blob).historyRecord =
        (getSessionHistory st (p.session_id.getD "") false).getLast?) ∧
    (getSessionHistory st (p.session_id.getD "") false = [] →
      (submitTranscription st p f1 f2 f3 ts blob).historyCreated = true) := by
  have hcond : (truthy p.user_id && truthy p.session_id) = true := by
    rw [hu, hsid]; rfl
  constructor
  · intro hne
    rcases hl : (getSessionHistory st (p.session_id.getD "") false).getLast? with _ | h0
    · exact absurd (List.getLast?_eq_none_iff.mp hl) hne
    · rw [submit_reuse st p f1 f2 f3 ts blob h0 hcond hl]
      exact ⟨rfl, rfl⟩
  · intro hemp
    have hl : (getSessionHistory st (p.session_id.getD "") false).getLast? = none :=
      List.getLast?_eq_none_iff.mpr hemp
    rw [submit_create st p f1 f2 f3 ts blob hcond hl]

/-- C7, witness: the amended theorem at the concrete durable store with an
existing session history; its hypotheses are discharged there. -/
theorem C7_reuse_policy_witness :
    (truthy pC7.user_id = true ∧ truthy pC7.session_id = true ∧
      getSessionHistory azC7 "S" false ≠ []) ∧
    (submitTranscription azC7 pC7 "fh" "fb" "ft" "2024-01-03" none).historyCreated = false := by
  refine ⟨⟨rfl, rfl, by decide⟩, ?_⟩
  exact ((C7_reuse_policy azC7 pC7 "fh" "fb" "ft" "2024-01-03" none rfl rfl).1 (by decide)).1

/-- C3, counterexample: submitting `model="bogus"` with `user_id` and
`session_id` supplied creates a History record and adds a pending
Transcription before the model is ever validated; the invalid-model HTTP
400 is raised only inside the event stream, so the rejection is neither
immediate nor free of persisted side effects (though no worker thread is
started). -/
theorem C3_counterexample :
    (submitTranscription (Store.mem {}) pBogus "h1" "h2" "t1" "2024" none).streamHttpError =
      some 400 ∧
    (submitTranscription (Store.mem {}) pBogus "h1" "h2" "t1" "2024" none).workerStarted = false ∧
    (submitTranscription (Store.mem {}) pBogus "h1" "h2" "t1" "2024" none).historyCreated = true ∧
    (submitTranscription (Store.mem {}) pBogus "h1" "h2" "t1" "2024" none).transcriptionAdded = true := by
  refine ⟨by decide, by decide, by decide, by decide⟩

/-- C3 (amended): a submission whose model is not `llm`, `whisper` or
`msft` starts no worker thread and is rejected with the invalid-model
HTTP 400 when the event stream first runs; but the rejection is not
immediate — when `user_id` and `session_id` are supplied, a History record
is resolved or created and a pending Transcription is added to it before
the model is checked (shown here for the in-memory mode, where the
creation step cannot fail). -/
theorem C3_invalid_model (st : Store) (p : SubmitParams)
    (f1 f2 f3 ts : String) (blob : Option String)
    (hm : ∀ s, p.model = some s → s ≠ "llm" ∧ s ≠ "whisper" ∧ s ≠ "msft") :
    (submitTranscription st p f1 f2 f3 ts blob).workerStarted = false ∧
    (submitTranscription st p f1 f2 f3 ts blob).streamHttpError = some 400 ∧
    (∀ m, st = Store.mem m → truthy p.user_id = true → truthy p.session_id = true →
      (submitTranscription st p f1 f2 f3 ts blob).historyRecord.isSome = true ∧
      (submitTranscription st p f1 f2 f3 ts blob).transcriptionAdded = true) := by
  have hd := dispatchModel_invalid p.model blob hm
  have hmain : ∀ (hcond : (truthy p.user_id && truthy p.session_id) = true)
      (m : MemoryStore), st = Store.mem m →
      (submitTranscription st p f1 f2 f3 ts blob).historyRecord.isSome = true ∧
      (submitTranscription st p f1 f2 f3 ts blob).transcriptionAdded = true := by
    rintro hcond m rfl
    rcases hl : (getSessionHistory (Store.mem m) (p.session_id.getD "") false).getLast?
        with _ | h0
    · rw [submit_create (Store.mem m) p f1 f2 f3 ts blob hcond hl]
      refine ⟨rfl, ?_⟩
      have hadd : addHistoryRecordMain (Store.mem m) f1 f2 ts (p.user_id.getD "")
          (p.session_id.getD "") =
          (newHistoryRecord f1 ts (p.user_id.getD "") (p.session_id.getD "") "transcription",
           Store.mem { m with histories := dictInsertHistory m.histories (newHistoryRecord f1 ts (p.user_id.getD "") (p.session_id.getD "") "transcription") }) := rfl
      rw [hadd]
      have hany := any_dictInsertHistory m.histories
        (newHistoryRecord f1 ts (p.user_id.getD "") (p.session_id.getD "") "transcription")
      have heq2 : addTranscriptionToHistory
          (Store.mem { m with histories := dictInsertHistory m.histories (newHistoryRecord f1 ts (p.user_id.getD "") (p.session_id.getD "") "transcription") })
          (newHistoryRecord f1 ts (p.user_id.getD "") (p.session_id.getD "") "transcription").id
          (submitTrec p) f3 =
          addTransMem { m with histories := dictInsertHistory m.histories (newHistoryRecord f1 ts (p.user_id.getD "") (p.session_id.getD "") "transcription") }
            (newHistoryRecord f1 ts (p.user_id.getD "") (p.session_id.getD "") "transcription").id
            (submitTrec p) f3 := rfl
      rw [heq2, addTransMem_of_any _ _ _ _ hany]
      rfl
    · rw [submit_reuse (Store.mem m) p f1 f2 f3 ts blob h0 hcond hl]
      refine ⟨rfl, ?_⟩
      have hmem0 : h0 ∈ getSessionHistory (Store.mem m) (p.session_id.getD "") false :=
        List.mem_of_mem_getLast? hl
      have hmem1 : h0 ∈ m.histories := by
        have heq3 : getSessionHistory (Store.mem m) (p.session_id.getD "") false =
            m.histories.filter (fun h => h.session_id == p.session_id.getD "") := rfl
        rw [heq3] at hmem0
        exact List.mem_of_mem_filter hmem0
      have hany : (m.histories.any fun x => x.id == h0.id) = true := by
        rw [List.any_eq_true]
        exact ⟨h0, hmem1, by simp⟩
      have heq2 : addTranscriptionToHistory (Store.mem m) h0.id (submitTrec p) f3 =
          addTransMem m h0.id (submitTrec p) f3 := rfl
      rw [heq2, addTransMem_of_any _ _ _ _ hany]
      rfl
  by_cases hcond : (truthy p.user_id && truthy p.session_id) = true
  · refine ⟨?_, ?_, fun m hst _ _ => hmain hcond m hst⟩
    · rcases hl : (getSessionHistory st (p.session_id.getD "") false).getLast? with _ | h0
      · rw [submit_create st p f1 f2 f3 ts blob hcond hl, hd]
      · rw [submit_reuse st p f1 f2 f3 ts blob h0 hcond hl, hd]
    · rcases hl : (getSessionHistory st (p.session_id.getD "") false).getLast? with _ | h0
      · rw [submit_create st p f1 f2 f3 ts blob hcond hl, hd]
      · rw [submit_reuse st p f1 f2 f3 ts blob h0 hcond hl, hd]
  · have hcond' : (truthy p.user_id && truthy p.session_id) = false := by
      simpa using hcond
    rw [submit_detached st p f1 f2 f3 ts blob hcond', hd]
    refine ⟨rfl, rfl, ?_⟩
    rintro m rfl hu hsid
    rw [hu, hsid] at hcond'
    simp at hcond'

/-- C3, witness: the amended theorem at the concrete `model="bogus"`
submission on the empty in-memory store; hypotheses discharged there. -/
theorem C3_invalid_model_witness :
    (∀ s, pBogus.model = some s → s ≠ "llm" ∧ s ≠ "whisper" ∧ s ≠ "msft") ∧
    (submitTranscription (Store.mem {}) pBogus "h1" "h2" "t1" "2024" none).workerStarted = false ∧
    (submitTranscription (Store.mem {}) pBogus "h1" "h2" "t1" "2024" none).transcriptionAdded = true := by
  have hm : ∀ s, pBogus.model = some s → s ≠ "llm" ∧ s ≠ "whisper" ∧ s ≠ "msft" := by
    intro s hsx
    have hs2 : some "bogus" = some s := hsx
    have : s = "bogus" := by simpa using hs2.symm
    subst this
    refine ⟨by decide, by decide, by decide⟩
  have h := C3_invalid_model (Store.mem {}) pBogus "h1" "h2" "t1" "2024" none hm
  exact ⟨hm, h.1, (h.2.2 {} rfl rfl rfl).2⟩

end MeetingSTT
